import Mathlib

/-
Verification of the financial time-series analytics engine of the
Quarterly-Financial-Analysis dashboard (frontend chart layer).

The JavaScript source is embedded shallowly:
  - JS numbers on the data path are modelled as rationals; the two division
    sites that can produce Infinity or NaN (percent change and growth ratios)
    return a JSVal, a rational extended with positive or negative infinity
    and a not-a-number element, with the IEEE result tables of JS.
  - JS strings are modelled as lists of characters; the default comparator
    of Array.sort compares code units, modelled by lexLt below.
  - Valid JS Date values are modelled as (year, month, day) triples with a
    zero-based month below 12, ordered lexicographically, which is exactly
    timestamp order for valid dates; records carry a dateValid flag that
    models whether new Date(d.TableDate) parses.
  - Template strings become inductive message values that carry the
    interpolated quantities; JS Array.sort becomes a stable merge sort.
-/

/- ===== Dates (model of valid JS Date values) ===== -/

structure JSDate where
  year : ℕ
  month : Fin 12
  day : ℕ
deriving DecidableEq

-- Math.floor(date.getMonth() / 3) + 1, months are zero-based.
def quarterOf (d : JSDate) : ℕ := d.month.val / 3 + 1

-- Comparator new Date(a) - new Date(b): timestamp order of valid dates.
def dateLe (a b : JSDate) : Bool :=
  decide (a.year < b.year ∨ (a.year = b.year ∧ (a.month.val < b.month.val ∨
    (a.month.val = b.month.val ∧ a.day ≤ b.day))))

/- ===== Records (rows of the fetched dataset) ===== -/

-- One row: TableDate plus the value of the currently charted metric.
-- dateValid models TableDate being present and parseable; value none models
-- a missing (undefined / null) metric value.
structure FinRec where
  dateValid : Bool
  TableDate : JSDate
  value : Option ℚ
deriving DecidableEq

def yearKey (r : FinRec) : ℕ := r.TableDate.year

/- ===== JSVal: JS float results of division sites ===== -/

inductive JSVal where
  | fin (q : ℚ)
  | posInf
  | negInf
  | nan
deriving DecidableEq

-- JS division of two finite numbers.
def jsDiv (a b : ℚ) : JSVal :=
  if b = 0 then (if 0 < a then .posInf else if a < 0 then .negInf else .nan)
  else .fin (a / b)

def JSVal.add : JSVal → JSVal → JSVal
  | .nan, _ => .nan
  | _, .nan => .nan
  | .posInf, .negInf => .nan
  | .negInf, .posInf => .nan
  | .posInf, _ => .posInf
  | _, .posInf => .posInf
  | .negInf, _ => .negInf
  | _, .negInf => .negInf
  | .fin a, .fin b => .fin (a + b)

def JSVal.mul100 : JSVal → JSVal
  | .fin q => .fin (q * 100)
  | .posInf => .posInf
  | .negInf => .negInf
  | .nan => .nan

def JSVal.div3 : JSVal → JSVal
  | .fin q => .fin (q / 3)
  | .posInf => .posInf
  | .negInf => .negInf
  | .nan => .nan

-- Math.abs
def JSVal.abs : JSVal → JSVal
  | .fin q => .fin |q|
  | .posInf => .posInf
  | .negInf => .posInf
  | .nan => .nan

-- v > c for a finite literal c (NaN compares false).
def JSVal.gtQ (v : JSVal) (c : ℚ) : Bool :=
  match v with
  | .fin q => decide (c < q)
  | .posInf => true
  | .negInf => false
  | .nan => false

-- v < c for a finite literal c (NaN compares false).
def JSVal.ltQ (v : JSVal) (c : ℚ) : Bool :=
  match v with
  | .fin q => decide (q < c)
  | .posInf => false
  | .negInf => true
  | .nan => false

/- ===== Characters and strings ===== -/

-- toLowerCase restricted to ASCII letters (metric names are ASCII).
def lowerChar (c : Char) : Char :=
  if 'A' ≤ c ∧ c ≤ 'Z' then Char.ofNat (c.toNat + 32) else c

-- needle is a leading segment of hay.
def leadsWith : List Char → List Char → Bool
  | [], _ => true
  | _ :: _, [] => false
  | a :: as, b :: bs => a == b && leadsWith as bs

-- String.prototype.includes: needle occurs inside hay.
def containsSub (n : List Char) : List Char → Bool
  | [] => leadsWith n []
  | c :: t => leadsWith n (c :: t) || containsSub n t

-- Little-endian decimal digits of a natural number ([0] for 0, like JS).
def digitsLE (n : ℕ) : List ℕ :=
  if h : n < 10 then [n] else (n % 10) :: digitsLE (n / 10)
termination_by n
decreasing_by exact Nat.div_lt_self (by omega) (by omega)

def digitChar : ℕ → Char
  | 0 => '0'
  | 1 => '1'
  | 2 => '2'
  | 3 => '3'
  | 4 => '4'
  | 5 => '5'
  | 6 => '6'
  | 7 => '7'
  | 8 => '8'
  | 9 => '9'
  | _ => '*'

-- String(n) for a natural number: big-endian decimal digit characters.
def numChars (n : ℕ) : List Char := ((digitsLE n).reverse).map digitChar

-- JS string comparison: lexicographic on code units.
def charLtB (a b : Char) : Bool := decide (a.toNat < b.toNat)

def lexLt : List Char → List Char → Bool
  | [], [] => false
  | [], _ :: _ => true
  | _ :: _, [] => false
  | a :: as, b :: bs => charLtB a b || (a == b && lexLt as bs)

def lexLe (a b : List Char) : Bool := !(lexLt b a)

/- ===== annualLastQuarter.js: getLastQuarterDataPerYear ===== -/

-- map.set(year, d): overwrite in place if the year is present (the key keeps
-- its original position, as in a JS Map), append otherwise.
def upsertYear (m : List (ℕ × FinRec)) (r : FinRec) : List (ℕ × FinRec) :=
  if m.any (fun e => e.1 == yearKey r) then
    m.map (fun e => if e.1 == yearKey r then (e.1, r) else e)
  else m ++ [(yearKey r, r)]

def yearMapOf (data : List FinRec) : List (ℕ × FinRec) := data.foldl upsertYear []

-- Array.from(map.values()).sort((a, b) => new Date(a.TableDate) - new Date(b.TableDate))
def getLastQuarterDataPerYear (data : List FinRec) : List FinRec :=
  ((yearMapOf data).map Prod.snd).mergeSort (fun a b => dateLe a.TableDate b.TableDate)

/- ===== MetricsChart.js: valid-date filter and range selection ===== -/

def validChartData (data : List FinRec) : List FinRec := data.filter (·.dateValid)

-- arr.slice(s, e + 1): clamping slice of the label list.
def jsSlice {α : Type} (l : List α) (s e : ℕ) : List α := (l.drop s).take (e + 1 - s)

-- The string `${year} Q${q}`.
def quarterLabel (d : JSDate) : List Char :=
  numChars d.year ++ [' ', 'Q'] ++ numChars (quarterOf d)

def recQuarterLabel (r : FinRec) : List Char := quarterLabel r.TableDate

-- Lines 93-126 of MetricsChart.js: drop invalid dates, then filter by the
-- selected slice of the period label list (pass-through when the label list
-- of the active granularity is empty).
def metricsFilteredData (isAnnual : Bool) (yearOptions : List ℕ) (yearRange : ℕ × ℕ)
    (quarterOptions : List (List Char)) (quarterRange : ℕ × ℕ)
    (data : List FinRec) : List FinRec :=
  let vd := validChartData data
  if isAnnual then
    if 0 < yearOptions.length then
      vd.filter (fun d => decide (yearKey d ∈ jsSlice yearOptions yearRange.1 yearRange.2))
    else vd
  else
    if 0 < quarterOptions.length then
      vd.filter (fun d => decide (recQuarterLabel d ∈ jsSlice quarterOptions quarterRange.1 quarterRange.2))
    else vd

/- ===== MetricsChart.js: detectAnomalies ===== -/

inductive AnomalyType where
  | spike
  | drop
deriving DecidableEq

-- The pushed object: index, type, and the message template
-- `Spike: ${metric} increased by ${magnitude}% on ${date}` with its
-- interpolated quantities kept as fields.
structure Anomaly where
  index : ℕ
  type : AnomalyType
  metricName : List Char
  magnitude : ℚ
  date : JSDate
deriving DecidableEq

-- JS truthiness of a possibly missing numeric value.
def truthy : Option ℚ → Bool
  | some q => q != 0
  | none => false

def pairAnomaly (metric : List Char) (t : ℚ) (p c : FinRec) (i : ℕ) : Option Anomaly :=
  match p.value, c.value with
  | some vp, some vc =>
    if vp = 0 ∨ vc = 0 then none
    else
      let ratio := vc / vp
      if t < ratio then some ⟨i, .spike, metric, ratio * 100 - 100, c.TableDate⟩
      else if ratio < 1 / t then some ⟨i, .drop, metric, 100 - ratio * 100, c.TableDate⟩
      else none
  | _, _ => none

def detectAux (metric : List Char) (t : ℚ) : FinRec → List FinRec → ℕ → List Anomaly
  | _, [], _ => []
  | p, c :: rest, i =>
    match pairAnomaly metric t p c i with
    | some a => a :: detectAux metric t c rest (i + 1)
    | none => detectAux metric t c rest (i + 1)

-- Loop for i in [1, data.length): compare data[i-1] and data[i].
def detectAnomalies (data : List FinRec) (metric : List Char) (t : ℚ) : List Anomaly :=
  match data with
  | [] => []
  | p :: rest => detectAux metric t p rest 1

/- ===== AIInsightsPanel.js: generateInsights ===== -/

-- A row as seen by the insights panel: date validity plus d[metric].
structure IRec where
  dateValid : Bool
  value : ℚ
deriving DecidableEq

inductive IType where
  | positive
  | negative
  | warning
  | info
deriving DecidableEq

-- The text template of each pushed insight, with interpolated quantities.
inductive IText where
  | strongGrowth (metric : List Char) (pct : JSVal)
  | significantDecline (metric : List Char) (absPct : JSVal)
  | upwardTrend (metric : List Char)
  | downwardTrend (metric : List Char)
  | highVolatility (metric : List Char)
  | strongAnnualGrowth (metric : List Char) (growth : JSVal)
  | revenueContext
  | profitContext
  | marginContext
deriving DecidableEq

structure Insight where
  type : IType
  text : IText
deriving DecidableEq

def validInsightData (data : List IRec) : List IRec := data.filter (·.dateValid)

-- values.slice(-n) for n ≥ 1: trailing window of at most n points.
def takeLast {α : Type} (n : ℕ) (l : List α) : List α := l.drop (l.length - n)

-- reduce of consecutive differences (idx 0 contributes nothing).
def diffSum (l : List ℚ) : ℚ :=
  (l.zip l.tail).foldl (fun acc pc => acc + (pc.2 - pc.1)) 0

def trendOf (l : List ℚ) : ℚ := diffSum l / ((l.length - 1 : ℕ) : ℚ)

-- reduce of consecutive fractional growth ratios, in JS float semantics.
def growthSum (l : List ℚ) : JSVal :=
  (l.zip l.tail).foldl (fun acc pc => JSVal.add acc (jsDiv (pc.2 - pc.1) pc.1)) (JSVal.fin 0)

def listMax : List ℚ → ℚ
  | [] => 0
  | a :: t => t.foldl max a

def listMin : List ℚ → ℚ
  | [] => 0
  | a :: t => t.foldl min a

def listAvg (l : List ℚ) : ℚ := (l.foldl (· + ·) 0) / (l.length : ℚ)

-- ((latestValue - previousValue) / previousValue) * 100 in JS semantics.
def pctChangeOf (values : List ℚ) : JSVal :=
  let latest := values.getD (values.length - 1) 0
  let previous := values.getD (values.length - 2) 0
  (jsDiv (latest - previous) previous).mul100

def kwRevenue : List Char := "revenue".toList
def kwProfit : List Char := "profit".toList
def kwMargin : List Char := "margin".toList

-- The metric.toLowerCase().includes chain (if / else if / else if).
def keywordPart (metric : List Char) (percentChange : JSVal) : List Insight :=
  let m := metric.map lowerChar
  if containsSub kwRevenue m then
    (if percentChange.gtQ 0 then [⟨.info, .revenueContext⟩] else [])
  else if containsSub kwProfit m then
    (if percentChange.gtQ 0 then [⟨.info, .profitContext⟩] else [])
  else if containsSub kwMargin m then
    (if percentChange.gtQ 0 then [⟨.info, .marginContext⟩] else [])
  else []

-- Push block 1: large percent change (lines 42-52).
def pctPart (metric : List Char) (percentChange : JSVal) : List Insight :=
  if percentChange.gtQ 20 then [⟨.positive, .strongGrowth metric percentChange⟩]
  else if percentChange.ltQ (-20) then [⟨.negative, .significantDecline metric percentChange.abs⟩]
  else []

-- Push block 2: trend sign (lines 54-64).
def trendPart (metric : List Char) (trend : ℚ) : List Insight :=
  if 0 < trend then [⟨.positive, .upwardTrend metric⟩]
  else if trend < 0 then [⟨.negative, .downwardTrend metric⟩]
  else []

-- (maxValue - minValue) / avgValue over the trailing window (lines 67-70).
def volOf (recentValues : List ℚ) : JSVal :=
  jsDiv (listMax recentValues - listMin recentValues) (listAvg recentValues)

-- Push block 3: high volatility (lines 72-77).
def volPart (metric : List Char) (volatility : JSVal) : List Insight :=
  if volatility.gtQ (3/10) then [⟨.warning, .highVolatility metric⟩] else []

-- Push block 4: annual growth (lines 80-92).
def annualPart (metric : List Char) (isAnnual : Bool) (yearlyGrowth : JSVal) : List Insight :=
  if isAnnual then
    (if yearlyGrowth.gtQ (1/10) then [⟨.info, .strongAnnualGrowth metric yearlyGrowth⟩] else [])
  else []

-- Lines 22-119 of AIInsightsPanel.js. The imperative pushes become list
-- appends in the push order of the source; block 5 is keywordPart above.
def generateInsights (data : List IRec) (metric : List Char) (isAnnual : Bool) : List Insight :=
  let vd := validInsightData data
  if vd.length < 2 then []
  else
    let values := vd.map (·.value)
    let percentChange := pctChangeOf values
    let recentValues := takeLast 4 values
    pctPart metric percentChange
      ++ trendPart metric (trendOf recentValues)
      ++ volPart metric (volOf recentValues)
      ++ annualPart metric isAnnual ((growthSum (takeLast 4 values)).div3)
      ++ keywordPart metric percentChange

-- The JSX list body: one item per insight, then a single placeholder item
-- exactly when the insight list is empty.
inductive RenderedItem where
  | insightItem (i : Insight)
  | noInsightsPlaceholder
deriving DecidableEq

def renderedInsightList (insights : List Insight) : List RenderedItem :=
  insights.map RenderedItem.insightItem ++
    (if insights.length = 0 then [RenderedItem.noInsightsPlaceholder] else [])

/- ===== MetricsTab.js / ComparisonTab.js: label lists and range effects ===== -/

-- arr.filter((v, i, arr) => arr.indexOf(v) === i), and Array.from(new Set(arr)):
-- keep the first occurrence of each element, in order.
def firstDedup {α : Type} [DecidableEq α] : List α → List α
  | [] => []
  | a :: t => a :: firstDedup (t.filter (fun x => decide (x ≠ a)))
termination_by l => l.length
decreasing_by
  simp only [List.length_cons]
  exact Nat.lt_succ_of_le (List.length_filter_le _ _)

-- The default comparator of Array.sort on numbers compares String(a) and
-- String(b) by code units.
def jsNumLe (a b : ℕ) : Bool := lexLe (numChars a) (numChars b)

-- Array.from(new Set(data.map(d => new Date(d.TableDate).getFullYear()))).sort()
def yearOptionsOf (data : List FinRec) : List ℕ :=
  (firstDedup (data.map yearKey)).mergeSort jsNumLe

-- data.map(quarter label).filter(first occurrence).sort()
def quarterOptionsOf (data : List FinRec) : List (List Char) :=
  (firstDedup (data.map recQuarterLabel)).mergeSort lexLe

-- setXRange([0, Math.max(0, options.length - 1)]) (truncated subtraction).
def resetRange (len : ℕ) : ℕ × ℕ := (0, len - 1)

-- The React.useEffect with dependency array [isAnnual, options.length]:
-- when either dependency differs from its previous value the range state is
-- reset to the full span, otherwise it is kept.
def effectResetRange (prevDeps curDeps : Bool × ℕ) (range : ℕ × ℕ) : ℕ × ℕ :=
  if curDeps = prevDeps then range else resetRange curDeps.2

/- ===== Helper lemmas: generateInsights structure ===== -/

lemma generateInsights_of_lt_two (data : List IRec) (metric : List Char) (ann : Bool)
    (h : (validInsightData data).length < 2) :
    generateInsights data metric ann = [] := by
  unfold generateInsights
  rw [if_pos h]

lemma generateInsights_of_two_le (data : List IRec) (metric : List Char) (ann : Bool)
    (h : 2 ≤ (validInsightData data).length) :
    generateInsights data metric ann =
      pctPart metric (pctChangeOf ((validInsightData data).map (·.value)))
        ++ trendPart metric (trendOf (takeLast 4 ((validInsightData data).map (·.value))))
        ++ volPart metric (volOf (takeLast 4 ((validInsightData data).map (·.value))))
        ++ annualPart metric ann ((growthSum (takeLast 4 ((validInsightData data).map (·.value)))).div3)
        ++ keywordPart metric (pctChangeOf ((validInsightData data).map (·.value))) := by
  unfold generateInsights
  rw [if_neg (by omega)]

-- Discriminators for the insight text categories.
def isAnnualGrowthText (i : Insight) : Bool :=
  match i.text with
  | .strongAnnualGrowth _ _ => true
  | _ => false

def isTrendText (i : Insight) : Bool :=
  match i.text with
  | .upwardTrend _ => true
  | .downwardTrend _ => true
  | _ => false

def isKeywordCtx (i : Insight) : Bool :=
  match i.text with
  | .revenueContext => true
  | .profitContext => true
  | .marginContext => true
  | _ => false

-- The category rank of an insight text, in push-block order of the source.
def textRank : IText → ℕ
  | .strongGrowth _ _ => 1
  | .significantDecline _ _ => 1
  | .upwardTrend _ => 2
  | .downwardTrend _ => 2
  | .highVolatility _ => 3
  | .strongAnnualGrowth _ _ => 4
  | .revenueContext => 5
  | .profitContext => 5
  | .marginContext => 5

-- The sum of period-over-period fractional growth ratios, in exact
-- rational arithmetic (matches growthSum when no previous value is 0).
def ratioSum (l : List ℚ) : ℚ :=
  (l.zip l.tail).foldl (fun acc pc => acc + (pc.2 - pc.1) / pc.1) 0

lemma growthSum_aux : ∀ (t : List ℚ) (a acc : ℚ), (∀ x ∈ a :: t, x ≠ 0) →
    ((a :: t).zip t).foldl (fun acc pc => JSVal.add acc (jsDiv (pc.2 - pc.1) pc.1)) (JSVal.fin acc)
      = JSVal.fin (((a :: t).zip t).foldl (fun acc pc => acc + (pc.2 - pc.1) / pc.1) acc) := by
  intro t
  induction t with
  | nil => intro a acc _; rfl
  | cons b t2 ih =>
    intro a acc h
    have ha : a ≠ 0 := h a (by simp)
    have hstep : JSVal.add (JSVal.fin acc) (jsDiv (b - a) a) = JSVal.fin (acc + (b - a) / a) := by
      rw [jsDiv, if_neg ha]; rfl
    simp only [List.zip_cons_cons, List.foldl_cons, hstep]
    exact ih b (acc + (b - a) / a) (fun x hx => h x (by simp at hx ⊢; tauto))

lemma growthSum_eq_fin (l : List ℚ) (h : ∀ x ∈ l, x ≠ 0) :
    growthSum l = JSVal.fin (ratioSum l) := by
  cases l with
  | nil => rfl
  | cons a t => exact growthSum_aux t a 0 h

-- Per-block filter lemmas.
lemma filter_ag_pctPart (m : List Char) (pc : JSVal) :
    (pctPart m pc).filter isAnnualGrowthText = [] := by
  unfold pctPart; split <;> [rfl; (split <;> rfl)]

lemma filter_ag_trendPart (m : List Char) (t : ℚ) :
    (trendPart m t).filter isAnnualGrowthText = [] := by
  unfold trendPart; split <;> [rfl; (split <;> rfl)]

lemma filter_ag_volPart (m : List Char) (v : JSVal) :
    (volPart m v).filter isAnnualGrowthText = [] := by
  unfold volPart; split <;> rfl

lemma keywordPart_shape (m : List Char) (pc : JSVal) :
    keywordPart m pc = [] ∨ keywordPart m pc = [⟨.info, .revenueContext⟩]
      ∨ keywordPart m pc = [⟨.info, .profitContext⟩]
      ∨ keywordPart m pc = [⟨.info, .marginContext⟩] := by
  unfold keywordPart
  rcases hrev : containsSub kwRevenue (List.map lowerChar m) <;>
    rcases hpro : containsSub kwProfit (List.map lowerChar m) <;>
      rcases hmar : containsSub kwMargin (List.map lowerChar m) <;>
        rcases hgt : pc.gtQ 0 <;>
          simp [hrev, hpro, hmar, hgt]

lemma filter_ag_keywordPart (m : List Char) (pc : JSVal) :
    (keywordPart m pc).filter isAnnualGrowthText = [] := by
  rcases keywordPart_shape m pc with h | h | h | h <;> rw [h] <;> rfl

lemma filter_ag_annualPart (m : List Char) (ann : Bool) (yg : JSVal) :
    (annualPart m ann yg).filter isAnnualGrowthText = annualPart m ann yg := by
  unfold annualPart
  split <;> [(split <;> rfl); rfl]

/- ===== Claim C7: fewer than 2 valid records ===== -/

/-- C7: with fewer than 2 valid records (the empty sequence included) the
insight generator returns the empty insight list, and the panel body renders
exactly one neutral placeholder item. -/
theorem insufficientData_no_insights_and_placeholder :
    ∀ (data : List IRec) (metric : List Char) (ann : Bool),
      (validInsightData data).length < 2 →
      generateInsights data metric ann = []
        ∧ renderedInsightList (generateInsights data metric ann)
            = [RenderedItem.noInsightsPlaceholder] := by
  intro data metric ann h
  have he : generateInsights data metric ann = [] := generateInsights_of_lt_two data metric ann h
  exact ⟨he, by rw [he]; rfl⟩

theorem insufficientData_no_insights_and_placeholder_witness :
    generateInsights ([] : List IRec) ("Revenue".toList) false = []
      ∧ renderedInsightList (generateInsights ([] : List IRec) ("Revenue".toList) false)
          = [RenderedItem.noInsightsPlaceholder] :=
  insufficientData_no_insights_and_placeholder [] ("Revenue".toList) false (by decide)

/- ===== Claim C3: previous value 0 in the percent change ===== -/

/-- C3 (refuting evaluation): on the valid two-point series 0 then 5 the code
computes percentChange = Infinity and pushes the strong-growth insight whose
text interpolates Infinity, so the division by a previous value of 0 is NOT
special-cased and Infinity does propagate into the displayed text. -/
theorem percentChange_zero_prev_propagates_infinity :
    generateInsights [(⟨true, 0⟩ : IRec), ⟨true, 5⟩] ("Assets".toList) false
      = [⟨.positive, .strongGrowth ("Assets".toList) JSVal.posInf⟩,
         ⟨.positive, .upwardTrend ("Assets".toList)⟩,
         ⟨.warning, .highVolatility ("Assets".toList)⟩] := by
  norm_num [generateInsights, validInsightData, pctChangeOf, takeLast, trendOf, diffSum,
    volOf, growthSum, listMax, listMin, listAvg, pctPart, trendPart, volPart, annualPart,
    keywordPart, containsSub, leadsWith, lowerChar, jsDiv, JSVal.gtQ, JSVal.ltQ,
    JSVal.mul100, JSVal.add, JSVal.div3, kwRevenue, kwProfit, kwMargin, List.filter]
  decide

/- ===== Claim C4: annual growth rate ===== -/

/-- C4 (counterexample): on an annual series with only 2 valid points,
strictly fewer than the 4 the claim requires, the annual strong-growth
insight IS emitted (the code divides the single growth ratio by 3 and
compares with 0.1), refuting the claim that the insight is absent for fewer
than 4 points. -/
theorem annualGrowth_two_points_counterexample :
    (validInsightData [(⟨true, 10⟩ : IRec), ⟨true, 20⟩]).length = 2
      ∧ (⟨.info, .strongAnnualGrowth ("Assets".toList) (JSVal.fin (1/3))⟩ : Insight)
          ∈ generateInsights [(⟨true, 10⟩ : IRec), ⟨true, 20⟩] ("Assets".toList) true := by
  constructor
  · rfl
  · norm_num [generateInsights, validInsightData, pctChangeOf, takeLast, trendOf, diffSum,
      volOf, growthSum, listMax, listMin, listAvg, pctPart, trendPart, volPart, annualPart,
      keywordPart, containsSub, leadsWith, lowerChar, jsDiv, JSVal.gtQ, JSVal.ltQ,
      JSVal.mul100, JSVal.add, JSVal.div3, kwRevenue, kwProfit, kwMargin, List.filter]

/-- C4 (amended): whenever granularity is annual and at least 2 valid points
exist (and no window value is 0, so the ratios are finite), yearlyGrowthRate
equals the sum of the period-over-period fractional growth ratios over the
trailing min(4, length) points divided by the constant 3 — even when fewer
than 3 ratios exist — and the info insight is emitted exactly when that
value exceeds 0.1; with non-annual granularity it is never emitted. -/
theorem yearlyGrowth_sum_div_three :
    ∀ (data : List IRec) (metric : List Char),
      2 ≤ (validInsightData data).length →
      (∀ r ∈ validInsightData data, r.value ≠ 0) →
      (growthSum (takeLast 4 ((validInsightData data).map (·.value)))).div3
          = JSVal.fin (ratioSum (takeLast 4 ((validInsightData data).map (·.value))) / 3)
        ∧ (generateInsights data metric true).filter isAnnualGrowthText
          = (if 1/10 < ratioSum (takeLast 4 ((validInsightData data).map (·.value))) / 3
             then [⟨.info, .strongAnnualGrowth metric
                     (JSVal.fin (ratioSum (takeLast 4 ((validInsightData data).map (·.value))) / 3))⟩]
             else [])
        ∧ (generateInsights data metric false).filter isAnnualGrowthText = [] := by
  intro data metric h2 hnz
  have hwnz : ∀ x ∈ takeLast 4 ((validInsightData data).map (·.value)), x ≠ 0 := by
    intro x hx
    have hxv : x ∈ (validInsightData data).map (·.value) := List.drop_subset _ _ hx
    obtain ⟨r, hr, hrx⟩ := List.mem_map.mp hxv
    exact hrx ▸ hnz r hr
  have hg : growthSum (takeLast 4 ((validInsightData data).map (·.value)))
      = JSVal.fin (ratioSum (takeLast 4 ((validInsightData data).map (·.value)))) :=
    growthSum_eq_fin _ hwnz
  have hdiv : (growthSum (takeLast 4 ((validInsightData data).map (·.value)))).div3
      = JSVal.fin (ratioSum (takeLast 4 ((validInsightData data).map (·.value))) / 3) := by
    rw [hg]; rfl
  refine ⟨hdiv, ?_, ?_⟩
  · rw [generateInsights_of_two_le data metric true h2]
    simp only [List.filter_append, filter_ag_pctPart, filter_ag_trendPart, filter_ag_volPart,
      filter_ag_keywordPart, filter_ag_annualPart, List.nil_append, List.append_nil]
    rw [annualPart, if_pos rfl, hdiv]
    simp only [JSVal.gtQ]
    by_cases hlt : 1/10 < ratioSum (takeLast 4 ((validInsightData data).map (·.value))) / 3
    · rw [if_pos (decide_eq_true hlt), if_pos hlt]
    · rw [if_neg (by simp only [decide_eq_true_iff]; exact hlt), if_neg hlt]
  · rw [generateInsights_of_two_le data metric false h2]
    simp only [List.filter_append, filter_ag_pctPart, filter_ag_trendPart, filter_ag_volPart,
      filter_ag_keywordPart, filter_ag_annualPart, List.nil_append, List.append_nil]
    rfl

theorem yearlyGrowth_sum_div_three_witness :
    (generateInsights [(⟨true, 10⟩ : IRec), ⟨true, 20⟩] ("Assets".toList) true).filter isAnnualGrowthText
      = (if 1/10 < ratioSum (takeLast 4 ((validInsightData [(⟨true, 10⟩ : IRec), ⟨true, 20⟩]).map (·.value))) / 3
         then [⟨.info, .strongAnnualGrowth ("Assets".toList)
                 (JSVal.fin (ratioSum (takeLast 4 ((validInsightData [(⟨true, 10⟩ : IRec), ⟨true, 20⟩]).map (·.value))) / 3))⟩]
         else []) :=
  (yearlyGrowth_sum_div_three [(⟨true, 10⟩ : IRec), ⟨true, 20⟩] ("Assets".toList)
    (by decide) (by decide)).2.1

/- ===== Claim C6: fixed emission order and keyword rule ===== -/

lemma mem_pctPart_rank (m : List Char) (pc : JSVal) :
    ∀ x ∈ pctPart m pc, textRank x.text = 1 := by
  intro x hx
  unfold pctPart at hx
  split at hx <;> [skip; split at hx] <;> simp_all [textRank]

lemma mem_trendPart_rank (m : List Char) (t : ℚ) :
    ∀ x ∈ trendPart m t, textRank x.text = 2 := by
  intro x hx
  unfold trendPart at hx
  split at hx <;> [skip; split at hx] <;> simp_all [textRank]

lemma mem_volPart_rank (m : List Char) (v : JSVal) :
    ∀ x ∈ volPart m v, textRank x.text = 3 := by
  intro x hx
  unfold volPart at hx
  split at hx <;> simp_all [textRank]

lemma mem_annualPart_rank (m : List Char) (ann : Bool) (yg : JSVal) :
    ∀ x ∈ annualPart m ann yg, textRank x.text = 4 := by
  intro x hx
  unfold annualPart at hx
  split at hx <;> [(split at hx <;> simp_all [textRank]); simp_all]

lemma mem_keywordPart_rank (m : List Char) (pc : JSVal) :
    ∀ x ∈ keywordPart m pc, textRank x.text = 5 := by
  intro x hx
  rcases keywordPart_shape m pc with h | h | h | h <;> rw [h] at hx <;> simp_all [textRank]

lemma pairwise_const_le (l : List ℕ) (k : ℕ) (h : ∀ x ∈ l, x = k) :
    l.Pairwise (· ≤ ·) := by
  induction l with
  | nil => exact List.Pairwise.nil
  | cons a t ih =>
    refine List.Pairwise.cons (fun b hb => ?_) (ih (fun x hx => h x (List.mem_cons_of_mem a hx)))
    rw [h a (List.mem_cons_self a t), h b (List.mem_cons_of_mem a hb)]

lemma ranks_blocks (l1 l2 l3 l4 l5 : List ℕ)
    (h1 : ∀ x ∈ l1, x = 1) (h2 : ∀ x ∈ l2, x = 2) (h3 : ∀ x ∈ l3, x = 3)
    (h4 : ∀ x ∈ l4, x = 4) (h5 : ∀ x ∈ l5, x = 5) :
    (l1 ++ l2 ++ l3 ++ l4 ++ l5).Pairwise (· ≤ ·) := by
  have hassoc : l1 ++ l2 ++ l3 ++ l4 ++ l5 = l1 ++ (l2 ++ (l3 ++ (l4 ++ l5))) := by
    simp [List.append_assoc]
  rw [hassoc]
  refine List.pairwise_append.mpr ⟨pairwise_const_le l1 1 h1,
    List.pairwise_append.mpr ⟨pairwise_const_le l2 2 h2,
      List.pairwise_append.mpr ⟨pairwise_const_le l3 3 h3,
        List.pairwise_append.mpr ⟨pairwise_const_le l4 4 h4, pairwise_const_le l5 5 h5,
          ?_⟩, ?_⟩, ?_⟩, ?_⟩
  · intro a ha b hb
    rw [h4 a ha, h5 b hb]; omega
  · intro a ha b hb
    rcases List.mem_append.mp hb with hb | hb
    · rw [h3 a ha, h4 b hb]; omega
    · rw [h3 a ha, h5 b hb]; omega
  · intro a ha b hb
    rcases List.mem_append.mp hb with hb | hb
    · rw [h2 a ha, h3 b hb]; omega
    rcases List.mem_append.mp hb with hb | hb
    · rw [h2 a ha, h4 b hb]; omega
    · rw [h2 a ha, h5 b hb]; omega
  · intro a ha b hb
    rcases List.mem_append.mp hb with hb | hb
    · rw [h1 a ha, h2 b hb]; omega
    rcases List.mem_append.mp hb with hb | hb
    · rw [h1 a ha, h3 b hb]; omega
    rcases List.mem_append.mp hb with hb | hb
    · rw [h1 a ha, h4 b hb]; omega
    · rw [h1 a ha, h5 b hb]; omega

lemma filter_kc_pctPart (m : List Char) (pc : JSVal) :
    (pctPart m pc).filter isKeywordCtx = [] := by
  unfold pctPart; split <;> [rfl; (split <;> rfl)]

lemma filter_kc_trendPart (m : List Char) (t : ℚ) :
    (trendPart m t).filter isKeywordCtx = [] := by
  unfold trendPart; split <;> [rfl; (split <;> rfl)]

lemma filter_kc_volPart (m : List Char) (v : JSVal) :
    (volPart m v).filter isKeywordCtx = [] := by
  unfold volPart; split <;> rfl

lemma filter_kc_annualPart (m : List Char) (ann : Bool) (yg : JSVal) :
    (annualPart m ann yg).filter isKeywordCtx = [] := by
  unfold annualPart; split <;> [(split <;> rfl); rfl]

lemma filter_kc_keywordPart (m : List Char) (pc : JSVal) :
    (keywordPart m pc).filter isKeywordCtx = keywordPart m pc := by
  rcases keywordPart_shape m pc with h | h | h | h <;> rw [h] <;> rfl

/-- C6: generateInsights is a fixed function of its inputs that emits
insights in the fixed block order large-percent-change, trend, volatility,
annual growth, keyword context (category ranks are monotone along the
output); at most one keyword-context insight is emitted; the categories
revenue, profit, margin are tested in that order on the lowercased metric
name, the first substring match wins with no stacking, gated by strictly
positive percent change; and on the concrete series 10, 4, 1, 30 (which has
a greater-than-20-percent rise and high volatility) the growth insight
precedes the volatility warning. -/
theorem generateInsights_fixed_order :
    (∀ (data : List IRec) (metric : List Char) (ann : Bool),
        ((generateInsights data metric ann).map (fun i => textRank i.text)).Pairwise (· ≤ ·))
    ∧ (∀ (data : List IRec) (metric : List Char) (ann : Bool),
        ((generateInsights data metric ann).filter isKeywordCtx).length ≤ 1)
    ∧ (∀ (data : List IRec) (metric : List Char) (ann : Bool),
        2 ≤ (validInsightData data).length →
        containsSub kwRevenue (metric.map lowerChar) = true →
        (generateInsights data metric ann).filter isKeywordCtx
          = (if (pctChangeOf ((validInsightData data).map (·.value))).gtQ 0
             then [⟨.info, .revenueContext⟩] else []))
    ∧ (∀ (data : List IRec) (metric : List Char) (ann : Bool),
        2 ≤ (validInsightData data).length →
        containsSub kwRevenue (metric.map lowerChar) = false →
        containsSub kwProfit (metric.map lowerChar) = true →
        (generateInsights data metric ann).filter isKeywordCtx
          = (if (pctChangeOf ((validInsightData data).map (·.value))).gtQ 0
             then [⟨.info, .profitContext⟩] else []))
    ∧ (∀ (data : List IRec) (metric : List Char) (ann : Bool),
        2 ≤ (validInsightData data).length →
        containsSub kwRevenue (metric.map lowerChar) = false →
        containsSub kwProfit (metric.map lowerChar) = false →
        containsSub kwMargin (metric.map lowerChar) = true →
        (generateInsights data metric ann).filter isKeywordCtx
          = (if (pctChangeOf ((validInsightData data).map (·.value))).gtQ 0
             then [⟨.info, .marginContext⟩] else []))
    ∧ (∀ (data : List IRec) (metric : List Char) (ann : Bool),
        containsSub kwRevenue (metric.map lowerChar) = false →
        containsSub kwProfit (metric.map lowerChar) = false →
        containsSub kwMargin (metric.map lowerChar) = false →
        (generateInsights data metric ann).filter isKeywordCtx = [])
    ∧ generateInsights [(⟨true, 10⟩ : IRec), ⟨true, 4⟩, ⟨true, 1⟩, ⟨true, 30⟩] ("Assets".toList) false
        = [⟨.positive, .strongGrowth ("Assets".toList) (JSVal.fin 2900)⟩,
           ⟨.positive, .upwardTrend ("Assets".toList)⟩,
           ⟨.warning, .highVolatility ("Assets".toList)⟩] := by
  refine ⟨?_, ?_, ?_, ?_, ?_, ?_, ?_⟩
  · intro data metric ann
    by_cases h2 : 2 ≤ (validInsightData data).length
    · rw [generateInsights_of_two_le data metric ann h2]
      simp only [List.map_append]
      refine ranks_blocks _ _ _ _ _ ?_ ?_ ?_ ?_ ?_ <;>
        (intro x hx; obtain ⟨i, hi, rfl⟩ := List.mem_map.mp hx)
      · exact mem_pctPart_rank _ _ i hi
      · exact mem_trendPart_rank _ _ i hi
      · exact mem_volPart_rank _ _ i hi
      · exact mem_annualPart_rank _ _ _ i hi
      · exact mem_keywordPart_rank _ _ i hi
    · rw [generateInsights_of_lt_two data metric ann (by omega)]
      exact List.Pairwise.nil
  · intro data metric ann
    by_cases h2 : 2 ≤ (validInsightData data).length
    · rw [generateInsights_of_two_le data metric ann h2]
      simp only [List.filter_append, filter_kc_pctPart, filter_kc_trendPart, filter_kc_volPart,
        filter_kc_annualPart, List.nil_append, filter_kc_keywordPart]
      rcases keywordPart_shape metric (pctChangeOf ((validInsightData data).map (·.value)))
        with h | h | h | h <;> rw [h] <;> simp
    · rw [generateInsights_of_lt_two data metric ann (by omega)]; simp
  · intro data metric ann h2 hrev
    rw [generateInsights_of_two_le data metric ann h2]
    simp only [List.filter_append, filter_kc_pctPart, filter_kc_trendPart, filter_kc_volPart,
      filter_kc_annualPart, List.nil_append, filter_kc_keywordPart]
    simp only [keywordPart]
    rw [if_pos hrev]
  · intro data metric ann h2 hrev hpro
    rw [generateInsights_of_two_le data metric ann h2]
    simp only [List.filter_append, filter_kc_pctPart, filter_kc_trendPart, filter_kc_volPart,
      filter_kc_annualPart, List.nil_append, filter_kc_keywordPart]
    simp only [keywordPart]
    rw [if_neg (by simp [hrev]), if_pos hpro]
  · intro data metric ann h2 hrev hpro hmar
    rw [generateInsights_of_two_le data metric ann h2]
    simp only [List.filter_append, filter_kc_pctPart, filter_kc_trendPart, filter_kc_volPart,
      filter_kc_annualPart, List.nil_append, filter_kc_keywordPart]
    simp only [keywordPart]
    rw [if_neg (by simp [hrev]), if_neg (by simp [hpro]), if_pos hmar]
  · intro data metric ann hrev hpro hmar
    by_cases h2 : 2 ≤ (validInsightData data).length
    · rw [generateInsights_of_two_le data metric ann h2]
      simp only [List.filter_append, filter_kc_pctPart, filter_kc_trendPart, filter_kc_volPart,
        filter_kc_annualPart, List.nil_append, filter_kc_keywordPart]
      simp only [keywordPart]
      rw [if_neg (by simp [hrev]), if_neg (by simp [hpro]), if_neg (by simp [hmar])]
    · rw [generateInsights_of_lt_two data metric ann (by omega)]; rfl
  · norm_num [generateInsights, validInsightData, pctChangeOf, takeLast, trendOf, diffSum,
      volOf, growthSum, listMax, listMin, listAvg, pctPart, trendPart, volPart, annualPart,
      keywordPart, containsSub, leadsWith, lowerChar, jsDiv, JSVal.gtQ, JSVal.ltQ,
      JSVal.mul100, JSVal.add, JSVal.div3, kwRevenue, kwProfit, kwMargin, List.filter]
    decide

theorem generateInsights_fixed_order_witness :
    (generateInsights [(⟨true, 10⟩ : IRec), ⟨true, 11⟩] ("Revenue".toList) false).filter isKeywordCtx
      = (if (pctChangeOf ((validInsightData [(⟨true, 10⟩ : IRec), ⟨true, 11⟩]).map (·.value))).gtQ 0
         then [⟨.info, .revenueContext⟩] else []) :=
  generateInsights_fixed_order.2.2.1 [(⟨true, 10⟩ : IRec), ⟨true, 11⟩] ("Revenue".toList) false
    (by decide) (by decide)

/- ===== Claim C10: the trend telescopes ===== -/

lemma diffSum_aux (l : List ℚ) : ∀ (x acc : ℚ),
    ((x :: l).zip l).foldl (fun acc pc => acc + (pc.2 - pc.1)) acc
      = acc + ((x :: l).getLast?.getD 0 - x) := by
  induction l with
  | nil =>
    intro x acc
    simp [List.getLast?]
  | cons y t ih =>
    intro x acc
    simp only [List.zip_cons_cons, List.foldl_cons]
    rw [ih y (acc + (y - x)), List.getLast?_cons_cons]
    ring

lemma diffSum_telescope (l : List ℚ) :
    diffSum l = l.getLast?.getD 0 - l.head?.getD 0 := by
  cases l with
  | nil => simp [diffSum]
  | cons x t =>
    unfold diffSum
    simp only [List.tail_cons]
    rw [diffSum_aux t x 0]
    simp

lemma takeLast_length {α : Type} (n : ℕ) (l : List α) :
    (takeLast n l).length = min n l.length := by
  simp only [takeLast, List.length_drop]
  omega

lemma filter_tt_pctPart (m : List Char) (pc : JSVal) :
    (pctPart m pc).filter isTrendText = [] := by
  unfold pctPart; split <;> [rfl; (split <;> rfl)]

lemma filter_tt_volPart (m : List Char) (v : JSVal) :
    (volPart m v).filter isTrendText = [] := by
  unfold volPart; split <;> rfl

lemma filter_tt_annualPart (m : List Char) (ann : Bool) (yg : JSVal) :
    (annualPart m ann yg).filter isTrendText = [] := by
  unfold annualPart; split <;> [(split <;> rfl); rfl]

lemma filter_tt_keywordPart (m : List Char) (pc : JSVal) :
    (keywordPart m pc).filter isTrendText = [] := by
  rcases keywordPart_shape m pc with h | h | h | h <;> rw [h] <;> rfl

lemma filter_tt_trendPart (m : List Char) (t : ℚ) :
    (trendPart m t).filter isTrendText = trendPart m t := by
  unfold trendPart; split <;> [rfl; (split <;> rfl)]

/-- C10: for at least 2 valid points, the trend over the trailing window w of
the last min(4, length) values telescopes to (last - first) / (k - 1), so the
trend insights depend only on the first and last window values: the upward
insight fires exactly when the last value exceeds the first, the downward one
exactly when it is below, whatever the interior points do. -/
theorem trend_depends_on_window_endpoints :
    ∀ (data : List IRec) (metric : List Char) (ann : Bool),
      2 ≤ (validInsightData data).length →
      (takeLast 4 ((validInsightData data).map (·.value))).length
          = min 4 ((validInsightData data).map (·.value)).length
        ∧ trendOf (takeLast 4 ((validInsightData data).map (·.value)))
          = ((takeLast 4 ((validInsightData data).map (·.value))).getLast?.getD 0
              - (takeLast 4 ((validInsightData data).map (·.value))).head?.getD 0)
            / (((takeLast 4 ((validInsightData data).map (·.value))).length - 1 : ℕ) : ℚ)
        ∧ (generateInsights data metric ann).filter isTrendText
          = (if (takeLast 4 ((validInsightData data).map (·.value))).head?.getD 0
                < (takeLast 4 ((validInsightData data).map (·.value))).getLast?.getD 0
             then [⟨.positive, .upwardTrend metric⟩]
             else if (takeLast 4 ((validInsightData data).map (·.value))).getLast?.getD 0
                < (takeLast 4 ((validInsightData data).map (·.value))).head?.getD 0
             then [⟨.negative, .downwardTrend metric⟩]
             else []) := by
  intro data metric ann hge2
  set values := (validInsightData data).map (·.value) with hvals
  set w := takeLast 4 values with hw
  have hvlen : 2 ≤ values.length := by
    rw [hvals, List.length_map]; exact hge2
  have hlen : w.length = min 4 values.length := by
    rw [hw]; exact takeLast_length 4 values
  have hwlen : 2 ≤ w.length := by omega
  have htr : trendOf w
      = (w.getLast?.getD 0 - w.head?.getD 0) / ((w.length - 1 : ℕ) : ℚ) := by
    unfold trendOf; rw [diffSum_telescope]
  refine ⟨hlen, htr, ?_⟩
  rw [generateInsights_of_two_le data metric ann hge2]
  simp only [List.filter_append, filter_tt_pctPart, filter_tt_volPart, filter_tt_annualPart,
    filter_tt_keywordPart, filter_tt_trendPart, List.nil_append, List.append_nil]
  have hc : (0:ℚ) < ((w.length - 1 : ℕ) : ℚ) := by
    have h1 : 1 ≤ w.length - 1 := by omega
    exact_mod_cast Nat.succ_le_iff.mp (by omega : 1 ≤ w.length - 1)
  have hiff1 : 0 < trendOf w ↔ w.head?.getD 0 < w.getLast?.getD 0 := by
    rw [htr, lt_div_iff₀ hc, zero_mul, sub_pos]
  have hiff2 : trendOf w < 0 ↔ w.getLast?.getD 0 < w.head?.getD 0 := by
    rw [htr, div_lt_iff₀ hc, zero_mul, sub_neg]
  unfold trendPart
  rcases lt_trichotomy (w.head?.getD 0) (w.getLast?.getD 0) with hlt | heq | hgt
  · rw [if_pos (hiff1.mpr hlt), if_pos hlt]
  · have hn1 : ¬ 0 < trendOf w := by rw [hiff1, heq]; exact lt_irrefl _
    have hn2 : ¬ trendOf w < 0 := by rw [hiff2, heq]; exact lt_irrefl _
    rw [if_neg hn1, if_neg hn2, if_neg (by rw [heq]; exact lt_irrefl _),
      if_neg (by rw [heq]; exact lt_irrefl _)]
  · have hn1 : ¬ 0 < trendOf w := by
      rw [hiff1]; exact not_lt.mpr (le_of_lt hgt)
    rw [if_neg hn1, if_pos (hiff2.mpr hgt), if_neg (not_lt.mpr (le_of_lt hgt)), if_pos hgt]

theorem trend_depends_on_window_endpoints_witness :
    (generateInsights [(⟨true, 10⟩ : IRec), ⟨true, 9⟩, ⟨true, 8⟩, ⟨true, 50⟩]
        ("Assets".toList) false).filter isTrendText
      = (if (takeLast 4 ((validInsightData
              [(⟨true, 10⟩ : IRec), ⟨true, 9⟩, ⟨true, 8⟩, ⟨true, 50⟩]).map (·.value))).head?.getD 0
            < (takeLast 4 ((validInsightData
              [(⟨true, 10⟩ : IRec), ⟨true, 9⟩, ⟨true, 8⟩, ⟨true, 50⟩]).map (·.value))).getLast?.getD 0
         then [⟨.positive, .upwardTrend ("Assets".toList)⟩]
         else if (takeLast 4 ((validInsightData
              [(⟨true, 10⟩ : IRec), ⟨true, 9⟩, ⟨true, 8⟩, ⟨true, 50⟩]).map (·.value))).getLast?.getD 0
            < (takeLast 4 ((validInsightData
              [(⟨true, 10⟩ : IRec), ⟨true, 9⟩, ⟨true, 8⟩, ⟨true, 50⟩]).map (·.value))).head?.getD 0
         then [⟨.negative, .downwardTrend ("Assets".toList)⟩]
         else []) :=
  (trend_depends_on_window_endpoints
    [(⟨true, 10⟩ : IRec), ⟨true, 9⟩, ⟨true, 8⟩, ⟨true, 50⟩] ("Assets".toList) false
    (by decide)).2.2

/- ===== Claim C1: anomaly detection characterization ===== -/

lemma pairAnomaly_eq_some_iff (metric : List Char) (pr cr : FinRec) (i : ℕ) (a : Anomaly) :
    pairAnomaly metric 2 pr cr i = some a
      ↔ ∃ vp vc, pr.value = some vp ∧ cr.value = some vc ∧ vp ≠ 0 ∧ vc ≠ 0
          ∧ ((2 < vc / vp ∧ a = ⟨i, .spike, metric, (vc / vp) * 100 - 100, cr.TableDate⟩)
             ∨ (vc / vp < 1 / 2 ∧ a = ⟨i, .drop, metric, 100 - (vc / vp) * 100, cr.TableDate⟩)) := by
  cases hpv : pr.value with
  | none => simp [pairAnomaly, hpv]
  | some vp =>
    cases hcv : cr.value with
    | none => simp [pairAnomaly, hpv, hcv]
    | some vc =>
      simp only [pairAnomaly, hpv, hcv, Option.some.injEq]
      by_cases h0 : vp = 0 ∨ vc = 0
      · rw [if_pos h0]
        constructor
        · intro h; exact absurd h (by simp)
        · rintro ⟨vp', vc', hvp, hvc, hnp, hnc, _⟩
          obtain rfl : vp' = vp := hvp.symm
          obtain rfl : vc' = vc := hvc.symm
          tauto
      · push_neg at h0
        rw [if_neg (by tauto)]
        by_cases hsp : 2 < vc / vp
        · rw [if_pos hsp]
          constructor
          · intro h
            exact ⟨vp, vc, rfl, rfl, h0.1, h0.2, Or.inl ⟨hsp, (Option.some_inj.mp h).symm⟩⟩
          · rintro ⟨vp', vc', hvp, hvc, _, _, hcase⟩
            obtain rfl : vp' = vp := hvp.symm
            obtain rfl : vc' = vc := hvc.symm
            rcases hcase with ⟨_, rfl⟩ | ⟨hdr, rfl⟩
            · rfl
            · linarith
        · by_cases hdr : vc / vp < 1 / 2
          · rw [if_neg hsp, if_pos hdr]
            constructor
            · intro h
              exact ⟨vp, vc, rfl, rfl, h0.1, h0.2, Or.inr ⟨hdr, (Option.some_inj.mp h).symm⟩⟩
            · rintro ⟨vp', vc', hvp, hvc, _, _, hcase⟩
              obtain rfl : vp' = vp := hvp.symm
              obtain rfl : vc' = vc := hvc.symm
              rcases hcase with ⟨hsp2, rfl⟩ | ⟨_, rfl⟩
              · exact absurd hsp2 hsp
              · rfl
          · rw [if_neg hsp, if_neg hdr]
            constructor
            · intro h; exact absurd h (by simp)
            · rintro ⟨vp', vc', hvp, hvc, _, _, hcase⟩
              obtain rfl : vp' = vp := hvp.symm
              obtain rfl : vc' = vc := hvc.symm
              rcases hcase with ⟨hsp2, _⟩ | ⟨hdr2, _⟩
              · exact absurd hsp2 hsp
              · exact absurd hdr2 hdr

lemma detectAux_mem (metric : List Char) (t : ℚ) :
    ∀ (rest : List FinRec) (p : FinRec) (i0 : ℕ) (a : Anomaly),
      a ∈ detectAux metric t p rest i0
        ↔ ∃ j pr cr, (p :: rest).get? j = some pr ∧ (p :: rest).get? (j + 1) = some cr
            ∧ pairAnomaly metric t pr cr (i0 + j) = some a := by
  intro rest
  induction rest with
  | nil =>
    intro p i0 a
    simp only [detectAux, List.not_mem_nil, false_iff]
    rintro ⟨j, pr, cr, _, h2, _⟩
    rcases j with _ | j <;> simp at h2
  | cons c rest ih =>
    intro p i0 a
    constructor
    · intro h
      unfold detectAux at h
      split at h
      case h_1 a0 heq =>
        rcases List.mem_cons.mp h with rfl | hmem
        · exact ⟨0, p, c, rfl, rfl, by simpa using heq⟩
        · obtain ⟨j, pr, cr, h1, h2, h3⟩ := (ih c (i0 + 1) a).mp hmem
          exact ⟨j + 1, pr, cr, by simpa using h1, by simpa using h2,
            by rw [show i0 + (j + 1) = i0 + 1 + j from by omega]; exact h3⟩
      case h_2 heq =>
        obtain ⟨j, pr, cr, h1, h2, h3⟩ := (ih c (i0 + 1) a).mp h
        exact ⟨j + 1, pr, cr, by simpa using h1, by simpa using h2,
          by rw [show i0 + (j + 1) = i0 + 1 + j from by omega]; exact h3⟩
    · rintro ⟨j, pr, cr, h1, h2, h3⟩
      unfold detectAux
      rcases j with _ | j
      · obtain rfl : pr = p := by simpa using h1.symm
        obtain rfl : cr = c := by simpa using h2.symm
        rw [show i0 + 0 = i0 from by omega] at h3
        split
        case h_1 a0 heq =>
          rw [heq] at h3
          exact List.mem_cons.mpr (Or.inl (Option.some_inj.mp h3).symm)
        case h_2 heq =>
          rw [heq] at h3
          exact absurd h3 (by simp)
      · have hmem := (ih c (i0 + 1) a).mpr
          ⟨j, pr, cr, by simpa using h1, by simpa using h2,
            by rw [show i0 + 1 + j = i0 + (j + 1) from by omega]; exact h3⟩
        split
        · exact List.mem_cons_of_mem _ hmem
        · exact hmem

/-- C1: with the default threshold 2, detectAnomalies emits an anomaly for
an adjacent pair exactly when both values are truthy (present and non-zero)
and the ratio curr/prev is strictly above 2 (spike, magnitude ratio*100-100)
or strictly below 1/2 (drop, magnitude 100-ratio*100); the anomaly carries
the index of the later point, so every emitted index lies in [1, length-1];
and the two-point series 100 then 250 yields exactly one spike at index 1
with magnitude 150. -/
theorem detectAnomalies_characterization :
    (∀ (data : List FinRec) (metric : List Char) (a : Anomaly),
        a ∈ detectAnomalies data metric 2
          ↔ ∃ i pr cr vp vc, data.get? i = some pr ∧ data.get? (i + 1) = some cr
              ∧ pr.value = some vp ∧ cr.value = some vc ∧ vp ≠ 0 ∧ vc ≠ 0
              ∧ ((2 < vc / vp
                    ∧ a = ⟨i + 1, .spike, metric, (vc / vp) * 100 - 100, cr.TableDate⟩)
                 ∨ (vc / vp < 1 / 2
                    ∧ a = ⟨i + 1, .drop, metric, 100 - (vc / vp) * 100, cr.TableDate⟩)))
    ∧ (∀ (data : List FinRec) (metric : List Char) (a : Anomaly),
        a ∈ detectAnomalies data metric 2 → 1 ≤ a.index ∧ a.index < data.length)
    ∧ detectAnomalies
        [⟨true, ⟨2022, 2, 31⟩, some 100⟩, ⟨true, ⟨2022, 5, 30⟩, some 250⟩]
        ("Revenue".toList) 2
        = [⟨1, .spike, ("Revenue".toList), 150, ⟨2022, 5, 30⟩⟩] := by
  have hchar : ∀ (data : List FinRec) (metric : List Char) (a : Anomaly),
      a ∈ detectAnomalies data metric 2
        ↔ ∃ i pr cr vp vc, data.get? i = some pr ∧ data.get? (i + 1) = some cr
            ∧ pr.value = some vp ∧ cr.value = some vc ∧ vp ≠ 0 ∧ vc ≠ 0
            ∧ ((2 < vc / vp
                  ∧ a = ⟨i + 1, .spike, metric, (vc / vp) * 100 - 100, cr.TableDate⟩)
               ∨ (vc / vp < 1 / 2
                  ∧ a = ⟨i + 1, .drop, metric, 100 - (vc / vp) * 100, cr.TableDate⟩)) := by
    intro data metric a
    cases data with
    | nil =>
      simp only [detectAnomalies, List.not_mem_nil, false_iff]
      rintro ⟨i, pr, cr, vp, vc, h1, _⟩
      simp at h1
    | cons p rest =>
      show a ∈ detectAux metric 2 p rest 1 ↔ _
      rw [detectAux_mem metric 2 rest p 1 a]
      constructor
      · rintro ⟨j, pr, cr, h1, h2, h3⟩
        obtain ⟨vp, vc, hvp, hvc, hnp, hnc, hcase⟩ := (pairAnomaly_eq_some_iff _ _ _ _ _).mp h3
        rw [show 1 + j = j + 1 from by omega] at hcase
        exact ⟨j, pr, cr, vp, vc, h1, h2, hvp, hvc, hnp, hnc, hcase⟩
      · rintro ⟨i, pr, cr, vp, vc, h1, h2, hvp, hvc, hnp, hnc, hcase⟩
        refine ⟨i, pr, cr, h1, h2, (pairAnomaly_eq_some_iff _ _ _ _ _).mpr
          ⟨vp, vc, hvp, hvc, hnp, hnc, ?_⟩⟩
        rw [show 1 + i = i + 1 from by omega]
        exact hcase
  refine ⟨hchar, ?_, ?_⟩
  · intro data metric a ha
    obtain ⟨i, pr, cr, vp, vc, _, h2, _, _, _, _, hcase⟩ := (hchar data metric a).mp ha
    have hilt : i + 1 < data.length := (List.get?_eq_some.mp h2).1
    rcases hcase with ⟨_, rfl⟩ | ⟨_, rfl⟩ <;> exact ⟨Nat.succ_le_succ (Nat.zero_le i), hilt⟩
  · norm_num [detectAnomalies, detectAux, pairAnomaly]

theorem detectAnomalies_characterization_witness :
    1 ≤ (⟨1, .spike, ("Revenue".toList), 150, ⟨2022, 5, 30⟩⟩ : Anomaly).index
      ∧ (⟨1, .spike, ("Revenue".toList), 150, ⟨2022, 5, 30⟩⟩ : Anomaly).index
          < ([⟨true, ⟨2022, 2, 31⟩, some 100⟩,
              ⟨true, ⟨2022, 5, 30⟩, some 250⟩] : List FinRec).length :=
  detectAnomalies_characterization.2.1
    [⟨true, ⟨2022, 2, 31⟩, some 100⟩, ⟨true, ⟨2022, 5, 30⟩, some 250⟩] ("Revenue".toList) _
    (by rw [detectAnomalies_characterization.2.2]; exact List.mem_singleton.mpr rfl)

/- ===== Claim C2: annual last-wins bucketing ===== -/

lemma mem_upsertYear (m : List (ℕ × FinRec)) (r : FinRec) (y : ℕ) (v : FinRec) :
    (y, v) ∈ upsertYear m r
      ↔ (y = yearKey r ∧ v = r) ∨ (y ≠ yearKey r ∧ (y, v) ∈ m) := by
  unfold upsertYear
  by_cases hc : m.any (fun e => e.1 == yearKey r)
  · rw [if_pos hc]
    simp only [List.mem_map]
    constructor
    · rintro ⟨e, he, heq⟩
      by_cases hk : (e.1 == yearKey r) = true
      · rw [if_pos hk] at heq
        obtain ⟨h1, h2⟩ := Prod.mk.injEq .. ▸ heq
        exact Or.inl ⟨h1 ▸ (beq_iff_eq.mp hk), h2.symm⟩
      · rw [if_neg hk] at heq
        subst heq
        exact Or.inr ⟨fun hy => hk (beq_iff_eq.mpr hy), he⟩
    · rintro (⟨rfl, rfl⟩ | ⟨hne, hm⟩)
      · obtain ⟨e, he, heq⟩ := List.any_eq_true.mp hc
        refine ⟨e, he, ?_⟩
        rw [if_pos heq]
        rw [beq_iff_eq.mp heq]
      · exact ⟨(y, v), hm, by rw [if_neg (by simp [hne])]⟩
  · rw [if_neg hc]
    simp only [List.mem_append, List.mem_singleton]
    have hknot : ∀ e ∈ m, e.1 ≠ yearKey r := by
      intro e he heq
      exact hc (List.any_eq_true.mpr ⟨e, he, beq_iff_eq.mpr heq⟩)
    constructor
    · rintro (hm | heq)
      · exact Or.inr ⟨fun hy => hknot (y, v) hm hy, hm⟩
      · obtain ⟨h1, h2⟩ := Prod.mk.injEq .. ▸ heq
        exact Or.inl ⟨h1, h2⟩
    · rintro (⟨rfl, rfl⟩ | ⟨hne, hm⟩)
      · exact Or.inr rfl
      · exact Or.inl hm

lemma upsertYear_fst_nodup (m : List (ℕ × FinRec)) (r : FinRec)
    (h : (m.map Prod.fst).Nodup) : ((upsertYear m r).map Prod.fst).Nodup := by
  unfold upsertYear
  by_cases hc : m.any (fun e => e.1 == yearKey r)
  · rw [if_pos hc]
    have heq : (m.map (fun e => if e.1 == yearKey r then (e.1, r) else e)).map Prod.fst
        = m.map Prod.fst := by
      rw [List.map_map]
      apply List.map_congr_left
      intro e _
      show (if e.1 == yearKey r then (e.1, r) else e).1 = e.1
      split <;> rfl
    rw [heq]; exact h
  · rw [if_neg hc, List.map_append]
    rw [List.nodup_append]
    refine ⟨h, List.nodup_singleton _, ?_⟩
    intro x hx hmem
    have hxk : x = yearKey r := by simpa using hmem
    obtain ⟨e, he, hfst⟩ := List.mem_map.mp hx
    exact hc (List.any_eq_true.mpr ⟨e, he, beq_iff_eq.mpr (hfst.trans hxk)⟩)

lemma mem_yearMapOf (data : List FinRec) (y : ℕ) (v : FinRec) :
    (y, v) ∈ yearMapOf data
      ↔ yearKey v = y ∧ (data.filter (fun d => yearKey d == y)).getLast? = some v := by
  induction data using List.reverseRecOn with
  | nil => simp [yearMapOf]
  | append_singleton xs x ih =>
    have hfold : yearMapOf (xs ++ [x]) = upsertYear (yearMapOf xs) x := by
      unfold yearMapOf
      rw [List.foldl_append]
      rfl
    rw [hfold, mem_upsertYear, List.filter_append]
    by_cases hk : yearKey x = y
    · have hfx : List.filter (fun d => yearKey d == y) [x] = [x] := by simp [hk]
      have hlast : (List.filter (fun d => yearKey d == y) xs ++ [x]).getLast? = some x := by
        rw [List.getLast?_append]; rfl
      rw [hfx, hlast]
      constructor
      · rintro (⟨hy, rfl⟩ | ⟨hne, _⟩)
        · exact ⟨hk, rfl⟩
        · exact absurd hk.symm hne
      · rintro ⟨hyv, hsome⟩
        exact Or.inl ⟨hk.symm, (Option.some_inj.mp hsome).symm⟩
    · have hfx : List.filter (fun d => yearKey d == y) [x] = [] := by simp [hk]
      rw [hfx, List.append_nil]
      constructor
      · rintro (⟨hy, _⟩ | ⟨_, hm⟩)
        · exact absurd hy.symm hk
        · exact ih.mp hm
      · intro hrhs
        exact Or.inr ⟨fun hy => hk hy.symm, ih.mpr hrhs⟩

lemma yearMapOf_fst_nodup (data : List FinRec) :
    ((yearMapOf data).map Prod.fst).Nodup := by
  induction data using List.reverseRecOn with
  | nil => simp [yearMapOf]
  | append_singleton xs x ih =>
    have hfold : yearMapOf (xs ++ [x]) = upsertYear (yearMapOf xs) x := by
      unfold yearMapOf
      rw [List.foldl_append]
      rfl
    rw [hfold]
    exact upsertYear_fst_nodup _ _ ih

lemma yearMapOf_fst_eq (data : List FinRec) :
    ∀ e ∈ yearMapOf data, yearKey e.2 = e.1 := by
  rintro ⟨y, v⟩ he
  exact ((mem_yearMapOf data y v).mp he).1

lemma dateLe_trans (a b c : JSDate) (hab : dateLe a b = true) (hbc : dateLe b c = true) :
    dateLe a c = true := by
  unfold dateLe at *
  simp only [decide_eq_true_iff] at *
  omega

lemma dateLe_total (a b : JSDate) : (dateLe a b || dateLe b a) = true := by
  unfold dateLe
  rw [Bool.or_eq_true]
  simp only [decide_eq_true_iff]
  omega

lemma getLast?_mem_of_eq {α : Type} {l : List α} {a : α} (h : l.getLast? = some a) :
    a ∈ l := by
  obtain ⟨hne, heq⟩ := List.mem_getLast?_eq_getLast (Option.mem_def.mpr h)
  rw [heq]
  exact List.getLast_mem hne

/-- C2: annual bucketing returns one record per distinct year of the input
(the year lists agree as sets and the output years carry no duplicate);
every returned record is the LAST record of its year in input order (the
last element of the input filtered to that year), not the chronologically
latest; and the output is sorted ascending by reportDate regardless of the
input order. -/
theorem getLastQuarterDataPerYear_spec :
    ∀ (data : List FinRec),
      ((getLastQuarterDataPerYear data).map yearKey).Nodup
        ∧ (∀ y, y ∈ data.map yearKey ↔ y ∈ (getLastQuarterDataPerYear data).map yearKey)
        ∧ (∀ r ∈ getLastQuarterDataPerYear data,
            (data.filter (fun d => yearKey d == yearKey r)).getLast? = some r)
        ∧ (getLastQuarterDataPerYear data).Pairwise
            (fun a b => dateLe a.TableDate b.TableDate = true) := by
  intro data
  have hperm : (getLastQuarterDataPerYear data).Perm ((yearMapOf data).map Prod.snd) :=
    List.mergeSort_perm _ _
  have hmapeq : ((yearMapOf data).map Prod.snd).map yearKey = (yearMapOf data).map Prod.fst := by
    rw [List.map_map]
    apply List.map_congr_left
    intro e he
    exact yearMapOf_fst_eq data e he
  have hpermkeys : ((getLastQuarterDataPerYear data).map yearKey).Perm
      ((yearMapOf data).map Prod.fst) := by
    rw [← hmapeq]
    exact hperm.map yearKey
  refine ⟨?_, ?_, ?_, ?_⟩
  · exact hpermkeys.symm.nodup (yearMapOf_fst_nodup data)
  · intro y
    rw [hpermkeys.mem_iff]
    constructor
    · intro hy
      obtain ⟨d, hd, rfl⟩ := List.mem_map.mp hy
      have hne : data.filter (fun x => yearKey x == yearKey d) ≠ [] := by
        intro hnil
        have hmem : d ∈ data.filter (fun x => yearKey x == yearKey d) :=
          List.mem_filter.mpr ⟨hd, by simp⟩
        rw [hnil] at hmem
        exact List.not_mem_nil d hmem
      obtain ⟨v, hv⟩ := Option.isSome_iff_exists.mp (List.getLast?_isSome.mpr hne)
      have hvmem := getLast?_mem_of_eq hv
      have hyv : yearKey v = yearKey d := by
        have := (List.mem_filter.mp hvmem).2
        simpa using this
      have : (yearKey d, v) ∈ yearMapOf data := (mem_yearMapOf data (yearKey d) v).mpr ⟨hyv, hv⟩
      exact List.mem_map.mpr ⟨(yearKey d, v), this, rfl⟩
    · intro hy
      obtain ⟨⟨y', v⟩, he, rfl⟩ := List.mem_map.mp hy
      obtain ⟨hyv, hlast⟩ := (mem_yearMapOf data _ _).mp he
      have hvmem := getLast?_mem_of_eq hlast
      have hvdata : v ∈ data := (List.mem_filter.mp hvmem).1
      exact List.mem_map.mpr ⟨v, hvdata, hyv⟩
  · intro r hr
    have hr2 : r ∈ (yearMapOf data).map Prod.snd := hperm.mem_iff.mp hr
    obtain ⟨⟨y, v⟩, he, rfl⟩ := List.mem_map.mp hr2
    obtain ⟨hyv, hlast⟩ := (mem_yearMapOf data y v).mp he
    show (data.filter (fun d => yearKey d == yearKey v)).getLast? = some v
    rw [hyv]
    exact hlast
  · exact List.sorted_mergeSort
      (fun a b c hab hbc => dateLe_trans a.TableDate b.TableDate c.TableDate hab hbc)
      (fun a b => dateLe_total a.TableDate b.TableDate) _

theorem getLastQuarterDataPerYear_spec_witness :
    (([⟨true, ⟨2023, 2, 31⟩, some 10⟩, ⟨true, ⟨2023, 0, 15⟩, some 20⟩] : List FinRec).filter
        (fun d => yearKey d == yearKey (⟨true, ⟨2023, 0, 15⟩, some 20⟩ : FinRec))).getLast?
      = some ⟨true, ⟨2023, 0, 15⟩, some 20⟩ :=
  (getLastQuarterDataPerYear_spec
      [⟨true, ⟨2023, 2, 31⟩, some 10⟩, ⟨true, ⟨2023, 0, 15⟩, some 20⟩]).2.2.1
    ⟨true, ⟨2023, 0, 15⟩, some 20⟩
    (by simp [getLastQuarterDataPerYear, yearMapOf, upsertYear, yearKey, List.mergeSort])

/- ===== Claim C8: range reset on dependency change ===== -/

/-- C8: whenever the granularity flag or the label-list length in the effect
dependency pair differs from its previous value, the active range is reset
to the full span [0, length-1] (collapsing to [0,0] for an empty list),
whose end index is in bounds for a non-empty list; a slice of the label
list never selects a label outside the list, so a stale range cannot select
out-of-bounds periods; and range [0,0] on a 5-period label list selects
exactly the valid records of the first period. -/
theorem rangeReset_on_dependency_change :
    (∀ (pa ca : Bool) (pl cl : ℕ) (r : ℕ × ℕ),
        (pa ≠ ca ∨ pl ≠ cl) →
        effectResetRange (pa, pl) (ca, cl) r = (0, cl - 1)
          ∧ (0 < cl → cl - 1 < cl)
          ∧ (cl = 0 → resetRange cl = (0, 0)))
    ∧ (∀ (labels : List ℕ) (s e x : ℕ), x ∈ jsSlice labels s e → x ∈ labels)
    ∧ (∀ (data : List FinRec) (l0 l1 l2 l3 l4 : ℕ)
          (qo : List (List Char)) (qr : ℕ × ℕ),
        metricsFilteredData true [l0, l1, l2, l3, l4] (0, 0) qo qr data
          = (validChartData data).filter (fun d => yearKey d == l0)) := by
  refine ⟨?_, ?_, ?_⟩
  · intro pa ca pl cl r h
    refine ⟨?_, fun hpos => by omega, fun h0 => by rw [resetRange, h0]⟩
    unfold effectResetRange resetRange
    rw [if_neg]
    intro heq
    have h1 : ca = pa ∧ cl = pl := Prod.mk.injEq .. ▸ heq
    rcases h with h | h
    · exact h h1.1.symm
    · exact h h1.2.symm
  · intro labels s e x hx
    exact List.drop_subset _ _ (List.take_subset _ _ hx)
  · intro data l0 l1 l2 l3 l4 qo qr
    show (validChartData data).filter _ = _
    apply List.filter_congr
    intro d _
    simp only [jsSlice, List.drop_zero, List.take_succ_cons, List.take_zero, List.mem_singleton]
    by_cases h : yearKey d = l0 <;> simp [h]

theorem rangeReset_on_dependency_change_witness :
    effectResetRange (true, 7) (false, 5) (2, 6) = (0, 5 - 1) :=
  (rangeReset_on_dependency_change.1 true false 7 5 (2, 6) (Or.inl (by decide))).1

/- ===== Claim C5: range selection is exactly the label slice ===== -/

lemma filter_slice_spec {α : Type} (key : FinRec → α)
    (vd : List FinRec) (labels : List α) (s e : ℕ) (p : FinRec → Bool)
    (hp : ∀ d, p d = true ↔ key d ∈ jsSlice labels s e)
    (hlab : ∀ y, y ∈ labels ↔ ∃ r ∈ vd, key r = y) :
    (∀ y, (∃ r ∈ vd.filter p, key r = y) ↔ y ∈ jsSlice labels s e)
    ∧ (labels = [] → vd = []) := by
  constructor
  · intro y
    constructor
    · rintro ⟨r, hr, rfl⟩
      exact (hp r).mp (List.mem_filter.mp hr).2
    · intro hy
      have hylab : y ∈ labels := by
        have h2 := hy
        unfold jsSlice at h2
        exact List.drop_subset _ _ (List.take_subset _ _ h2)
      obtain ⟨r, hr, rfl⟩ := (hlab y).mp hylab
      exact ⟨r, List.mem_filter.mpr ⟨hr, (hp r).mpr hy⟩, rfl⟩
  · intro hnil
    rw [List.eq_nil_iff_forall_not_mem]
    intro r hr
    have hmem : key r ∈ labels := (hlab (key r)).mpr ⟨r, hr, rfl⟩
    rw [hnil] at hmem
    exact List.not_mem_nil _ hmem

/-- C5: for a label list that is exactly the set of period keys of the valid
records, and any valid range [s, e] into it, the chart filter returns
exactly the valid records whose period key lies in labels[s..e] inclusive
(annual: year keys; quarterly: year-quarter labels); the keys of the result
are exactly the members of that slice; and an empty label list yields the
empty sequence. -/
theorem selectRange_exact_slice :
    (∀ (data : List FinRec) (yo : List ℕ) (s e : ℕ)
        (qo : List (List Char)) (qr : ℕ × ℕ),
        (∀ y, y ∈ yo ↔ ∃ r ∈ validChartData data, yearKey r = y) →
        (yo ≠ [] → s ≤ e ∧ e < yo.length) →
        metricsFilteredData true yo (s, e) qo qr data
            = (validChartData data).filter (fun d => decide (yearKey d ∈ jsSlice yo s e))
          ∧ (∀ y, (∃ r ∈ metricsFilteredData true yo (s, e) qo qr data, yearKey r = y)
              ↔ y ∈ jsSlice yo s e)
          ∧ (yo = [] → metricsFilteredData true yo (s, e) qo qr data = []))
    ∧ (∀ (data : List FinRec) (qo : List (List Char)) (s e : ℕ)
        (yo : List ℕ) (yr : ℕ × ℕ),
        (∀ q, q ∈ qo ↔ ∃ r ∈ validChartData data, recQuarterLabel r = q) →
        (qo ≠ [] → s ≤ e ∧ e < qo.length) →
        metricsFilteredData false yo yr qo (s, e) data
            = (validChartData data).filter
                (fun d => decide (recQuarterLabel d ∈ jsSlice qo s e))
          ∧ (∀ q, (∃ r ∈ metricsFilteredData false yo yr qo (s, e) data,
                recQuarterLabel r = q)
              ↔ q ∈ jsSlice qo s e)
          ∧ (qo = [] → metricsFilteredData false yo yr qo (s, e) data = [])) := by
  constructor
  · intro data yo s e qo qr hlab _
    have hgen := filter_slice_spec yearKey (validChartData data) yo s e
      (fun d => decide (yearKey d ∈ jsSlice yo s e)) (fun d => decide_eq_true_iff) hlab
    have hmf : metricsFilteredData true yo (s, e) qo qr data
        = (validChartData data).filter (fun d => decide (yearKey d ∈ jsSlice yo s e)) := by
      simp only [metricsFilteredData]
      rw [if_pos (by trivial)]
      by_cases hnil : yo = []
      · rw [if_neg (by rw [hnil]; exact lt_irrefl 0), hgen.2 hnil, List.filter_nil]
      · rw [if_pos (List.length_pos.mpr hnil)]
    exact ⟨hmf, fun y => by rw [hmf]; exact hgen.1 y,
      fun hnil => by rw [hmf, hgen.2 hnil, List.filter_nil]⟩
  · intro data qo s e yo yr hlab _
    have hgen := filter_slice_spec recQuarterLabel (validChartData data) qo s e
      (fun d => decide (recQuarterLabel d ∈ jsSlice qo s e)) (fun d => decide_eq_true_iff) hlab
    have hmf : metricsFilteredData false yo yr qo (s, e) data
        = (validChartData data).filter
            (fun d => decide (recQuarterLabel d ∈ jsSlice qo s e)) := by
      simp only [metricsFilteredData]
      rw [if_neg (by simp)]
      by_cases hnil : qo = []
      · rw [if_neg (by rw [hnil]; exact lt_irrefl 0), hgen.2 hnil, List.filter_nil]
      · rw [if_pos (List.length_pos.mpr hnil)]
    exact ⟨hmf, fun q => by rw [hmf]; exact hgen.1 q,
      fun hnil => by rw [hmf, hgen.2 hnil, List.filter_nil]⟩

theorem selectRange_exact_slice_witness :
    metricsFilteredData true [2020, 2021] (0, 0) [] (0, 0)
        [⟨true, ⟨2020, 0, 1⟩, none⟩, ⟨true, ⟨2021, 0, 1⟩, none⟩]
      = (validChartData [⟨true, ⟨2020, 0, 1⟩, none⟩, ⟨true, ⟨2021, 0, 1⟩, none⟩]).filter
          (fun d => decide (yearKey d ∈ jsSlice [2020, 2021] 0 0)) :=
  (selectRange_exact_slice.1
      [⟨true, ⟨2020, 0, 1⟩, none⟩, ⟨true, ⟨2021, 0, 1⟩, none⟩]
      [2020, 2021] 0 0 [] (0, 0)
      (by intro y; simp [validChartData, yearKey]; constructor <;> rintro (rfl | rfl) <;> simp)
      (fun _ => ⟨Nat.le_refl 0, by simp⟩)).1

/- ===== Claim C9: label list order ===== -/

lemma lexLt_irrefl (l : List Char) : lexLt l l = false := by
  induction l with
  | nil => rfl
  | cons a as ih => simp [lexLt, charLtB, ih]

lemma lexLt_trans : ∀ (a b c : List Char),
    lexLt a b = true → lexLt b c = true → lexLt a c = true := by
  intro a
  induction a with
  | nil =>
    intro b c hab hbc
    cases c with
    | nil =>
      cases b with
      | nil => simp [lexLt] at hab
      | cons y ys => simp [lexLt] at hbc
    | cons z zs => simp [lexLt]
  | cons x xs ih =>
    intro b c hab hbc
    cases b with
    | nil => simp [lexLt] at hab
    | cons y ys =>
      cases c with
      | nil => simp [lexLt] at hbc
      | cons z zs =>
        simp only [lexLt, Bool.or_eq_true, Bool.and_eq_true, beq_iff_eq] at hab hbc ⊢
        rcases hab with h1 | ⟨rfl, h1⟩ <;> rcases hbc with h2 | ⟨rfl, h2⟩
        · left; simp only [charLtB, Char.toNat, decide_eq_true_iff] at h1 h2 ⊢; omega
        · left; exact h1
        · left; exact h2
        · right; exact ⟨rfl, ih ys zs h1 h2⟩

lemma lexLt_connex : ∀ (a b : List Char),
    lexLt a b = false → lexLt b a = false → a = b := by
  intro a
  induction a with
  | nil =>
    intro b h1 _
    cases b with
    | nil => rfl
    | cons y ys => simp [lexLt] at h1
  | cons x xs ih =>
    intro b h1 h2
    cases b with
    | nil => simp [lexLt] at h2
    | cons y ys =>
      simp only [lexLt, Bool.or_eq_false_iff, Bool.and_eq_false_iff] at h1 h2
      have hxy : x = y := by
        have ha := h1.1
        have hb := h2.1
        simp only [charLtB, Char.toNat, decide_eq_false_iff_not, not_lt] at ha hb
        exact Char.ext (UInt32.ext (by omega))
      subst hxy
      have hxs : lexLt xs ys = false := by
        rcases h1.2 with h | h
        · simp at h
        · exact h
      have hys : lexLt ys xs = false := by
        rcases h2.2 with h | h
        · simp at h
        · exact h
      rw [ih ys hxs hys]

lemma lexLe_trans (a b c : List Char)
    (h1 : lexLe a b = true) (h2 : lexLe b c = true) : lexLe a c = true := by
  unfold lexLe at h1 h2 ⊢
  rw [Bool.not_eq_true'] at h1 h2 ⊢
  by_contra hca
  rw [Bool.not_eq_false] at hca
  by_cases hab : lexLt a b = true
  · have h3 := lexLt_trans c a b hca hab
    rw [h3] at h2
    exact Bool.noConfusion h2
  · have hab' : lexLt a b = false := by
      rwa [Bool.not_eq_true] at hab
    have heq : a = b := lexLt_connex a b hab' h1
    subst heq
    rw [hca] at h2
    exact Bool.noConfusion h2

lemma lexLe_total (a b : List Char) : (lexLe a b || lexLe b a) = true := by
  rw [Bool.or_eq_true]
  by_cases h1 : lexLt b a = true
  · by_cases h2 : lexLt a b = true
    · have h3 := lexLt_trans a b a h2 h1
      rw [lexLt_irrefl] at h3
      exact Bool.noConfusion h3
    · right
      have h2' : lexLt a b = false := by rwa [Bool.not_eq_true] at h2
      unfold lexLe
      rw [h2']
      rfl
  · left
    have h1' : lexLt b a = false := by rwa [Bool.not_eq_true] at h1
    unfold lexLe
    rw [h1']
    rfl

lemma firstDedup_subset_nodup {α : Type} [DecidableEq α] :
    ∀ (l : List α), firstDedup l ⊆ l ∧ (firstDedup l).Nodup := by
  have key : ∀ (n : ℕ) (l : List α), l.length ≤ n → firstDedup l ⊆ l ∧ (firstDedup l).Nodup := by
    intro n
    induction n with
    | zero =>
      intro l hl
      have hnil : l = [] := List.eq_nil_of_length_eq_zero (by omega)
      subst hnil
      exact ⟨by simp [firstDedup], by simp [firstDedup]⟩
    | succ n ih =>
      intro l hl
      cases l with
      | nil => exact ⟨by simp [firstDedup], by simp [firstDedup]⟩
      | cons a t =>
        rw [firstDedup]
        have hlen : (t.filter (fun x => decide (x ≠ a))).length ≤ n :=
          le_trans (List.length_filter_le _ _) (by simpa using hl)
        obtain ⟨hsub, hnodup⟩ := ih _ hlen
        constructor
        · intro x hx
          rcases List.mem_cons.mp hx with rfl | hx
          · exact List.mem_cons_self _ _
          · exact List.mem_cons_of_mem _ (List.mem_of_mem_filter (hsub hx))
        · refine List.nodup_cons.mpr ⟨?_, hnodup⟩
          intro ha
          have hmem := hsub ha
          have := (List.mem_filter.mp hmem).2
          simp at this
  exact fun l => key l.length l (le_refl _)

lemma digitsLE_lt10 (n : ℕ) (h : n < 10) : digitsLE n = [n] := by
  rw [digitsLE, dif_pos h]

lemma digitsLE_ge10 (n : ℕ) (h : ¬ n < 10) : digitsLE n = n % 10 :: digitsLE (n / 10) := by
  rw [digitsLE]
  rw [dif_neg h]

lemma numChars_single (n : ℕ) (h : n < 10) : numChars n = [digitChar n] := by
  rw [numChars, digitsLE_lt10 n h]
  rfl

lemma numChars_four (n : ℕ) (h1 : 1000 ≤ n) (h2 : n ≤ 9999) :
    numChars n = [digitChar (n / 1000), digitChar (n / 100 % 10),
      digitChar (n / 10 % 10), digitChar (n % 10)] := by
  have e1 : digitsLE n = n % 10 :: digitsLE (n / 10) := digitsLE_ge10 n (by omega)
  have e2 : digitsLE (n / 10) = n / 10 % 10 :: digitsLE (n / 10 / 10) :=
    digitsLE_ge10 _ (by omega)
  have e3 : digitsLE (n / 10 / 10) = n / 10 / 10 % 10 :: digitsLE (n / 10 / 10 / 10) :=
    digitsLE_ge10 _ (by omega)
  have e4 : digitsLE (n / 10 / 10 / 10) = [n / 10 / 10 / 10] := digitsLE_lt10 _ (by omega)
  rw [numChars, e1, e2, e3, e4]
  simp only [List.reverse_cons, List.reverse_nil, List.nil_append, List.cons_append,
    List.map_cons, List.map_nil, List.append_assoc]
  rw [Nat.div_div_eq_div_mul, Nat.div_div_eq_div_mul, Nat.div_div_eq_div_mul]

lemma digitChar_cmp : ∀ (a b : Fin 10),
    (charLtB (digitChar a.val) (digitChar b.val) = true ↔ a.val < b.val)
      ∧ (digitChar a.val = digitChar b.val ↔ a.val = b.val) := by decide

lemma digitChar_cmp' (a b : ℕ) (ha : a ≤ 9) (hb : b ≤ 9) :
    (charLtB (digitChar a) (digitChar b) = true ↔ a < b)
      ∧ (digitChar a = digitChar b ↔ a = b) := by
  have h := digitChar_cmp ⟨a, by omega⟩ ⟨b, by omega⟩
  simpa using h

lemma lexLt_numChars_iff (y1 y2 : ℕ) (h1a : 1000 ≤ y1) (h1b : y1 ≤ 9999)
    (h2a : 1000 ≤ y2) (h2b : y2 ≤ 9999) :
    (lexLt (numChars y1) (numChars y2) = true) ↔ y1 < y2 := by
  rw [numChars_four y1 h1a h1b, numChars_four y2 h2a h2b]
  have d1 := digitChar_cmp' (y1 / 1000) (y2 / 1000) (by omega) (by omega)
  have d2 := digitChar_cmp' (y1 / 100 % 10) (y2 / 100 % 10) (by omega) (by omega)
  have d3 := digitChar_cmp' (y1 / 10 % 10) (y2 / 10 % 10) (by omega) (by omega)
  have d4 := digitChar_cmp' (y1 % 10) (y2 % 10) (by omega) (by omega)
  simp only [lexLt, Bool.or_eq_true, Bool.and_eq_true, beq_iff_eq]
  rw [d1.1, d1.2, d2.1, d2.2, d3.1, d3.2, d4.1, d4.2]
  simp only [Bool.false_eq_true, and_false, or_false]
  omega

lemma lexLt_quarterLabel_iff (y1 q1 y2 q2 : ℕ)
    (h1a : 1000 ≤ y1) (h1b : y1 ≤ 9999) (h2a : 1000 ≤ y2) (h2b : y2 ≤ 9999)
    (hq1 : q1 ≤ 9) (hq2 : q2 ≤ 9) :
    (lexLt (numChars y1 ++ [' ', 'Q'] ++ numChars q1)
        (numChars y2 ++ [' ', 'Q'] ++ numChars q2) = true)
      ↔ (y1 < y2 ∨ (y1 = y2 ∧ q1 < q2)) := by
  rw [numChars_four y1 h1a h1b, numChars_four y2 h2a h2b,
    numChars_single q1 (by omega), numChars_single q2 (by omega)]
  have d1 := digitChar_cmp' (y1 / 1000) (y2 / 1000) (by omega) (by omega)
  have d2 := digitChar_cmp' (y1 / 100 % 10) (y2 / 100 % 10) (by omega) (by omega)
  have d3 := digitChar_cmp' (y1 / 10 % 10) (y2 / 10 % 10) (by omega) (by omega)
  have d4 := digitChar_cmp' (y1 % 10) (y2 % 10) (by omega) (by omega)
  have d5 := digitChar_cmp' q1 q2 hq1 hq2
  have hsp : charLtB ' ' ' ' = false := by decide
  have hqc : charLtB 'Q' 'Q' = false := by decide
  simp only [List.cons_append, List.nil_append]
  simp only [lexLt, Bool.or_eq_true, Bool.and_eq_true, beq_iff_eq]
  rw [d1.1, d1.2, d2.1, d2.2, d3.1, d3.2, d4.1, d4.2, d5.1, hsp, hqc]
  simp only [Bool.false_eq_true, false_or, true_and, and_false, or_false]
  omega

/-- C9 (amended): the distinct label lists are sorted by the JS default
string comparator (code-unit order), which coincides with calendar order
exactly when the decimal year strings have equal width; hence for datasets
whose years are all four-digit (1000..9999) the annual year list is sorted
ascending numerically, and in the quarterly label list any label derived
from an earlier (year, quarter) pair precedes any label derived from a
later one. -/
theorem labelList_calendar_order_four_digit :
    (∀ (data : List FinRec),
        (∀ r ∈ data, 1000 ≤ yearKey r ∧ yearKey r ≤ 9999) →
        (yearOptionsOf data).Pairwise (· < ·))
    ∧ (∀ (data : List FinRec),
        (quarterOptionsOf data).Pairwise (fun a b =>
          ∀ y1 q1 y2 q2 : ℕ,
            1000 ≤ y1 → y1 ≤ 9999 → 1000 ≤ y2 → y2 ≤ 9999 →
            q1 ≤ 9 → q2 ≤ 9 →
            a = numChars y1 ++ [' ', 'Q'] ++ numChars q1 →
            b = numChars y2 ++ [' ', 'Q'] ++ numChars q2 →
            (y1 < y2 ∨ (y1 = y2 ∧ q1 < q2)))) := by
  constructor
  · intro data hbound
    have hsorted : (yearOptionsOf data).Pairwise (fun a b => jsNumLe a b = true) :=
      List.sorted_mergeSort
        (fun a b c hab hbc => lexLe_trans (numChars a) (numChars b) (numChars c) hab hbc)
        (fun a b => lexLe_total (numChars a) (numChars b)) _
    have hnodup : (yearOptionsOf data).Nodup :=
      (List.mergeSort_perm _ jsNumLe).symm.nodup (firstDedup_subset_nodup _).2
    have hne : (yearOptionsOf data).Pairwise (· ≠ ·) := hnodup
    have hmem : ∀ x ∈ yearOptionsOf data, 1000 ≤ x ∧ x ≤ 9999 := by
      intro x hx
      have hx2 : x ∈ data.map yearKey :=
        (firstDedup_subset_nodup _).1 ((List.mergeSort_perm _ jsNumLe).mem_iff.mp hx)
      obtain ⟨r, hr, rfl⟩ := List.mem_map.mp hx2
      exact hbound r hr
    refine List.Pairwise.imp_of_mem ?_ (hsorted.and hne)
    intro a b ha hb hab
    obtain ⟨hle, hneq⟩ := hab
    obtain ⟨ha1, ha2⟩ := hmem a ha
    obtain ⟨hb1, hb2⟩ := hmem b hb
    by_contra hnlt
    push_neg at hnlt
    have hba : b < a := lt_of_le_of_ne hnlt (fun h => hneq h.symm)
    have hlt : lexLt (numChars b) (numChars a) = true :=
      (lexLt_numChars_iff b a hb1 hb2 ha1 ha2).mpr hba
    have hfalse : jsNumLe a b = false := by
      unfold jsNumLe lexLe
      rw [hlt]
      rfl
    rw [hfalse] at hle
    exact Bool.noConfusion hle
  · intro data
    have hsorted : (quarterOptionsOf data).Pairwise (fun a b => lexLe a b = true) :=
      List.sorted_mergeSort
        (fun a b c hab hbc => lexLe_trans a b c hab hbc)
        (fun a b => lexLe_total a b) _
    have hnodup : (quarterOptionsOf data).Nodup :=
      (List.mergeSort_perm _ lexLe).symm.nodup (firstDedup_subset_nodup _).2
    have hne : (quarterOptionsOf data).Pairwise (· ≠ ·) := hnodup
    refine List.Pairwise.imp_of_mem ?_ (hsorted.and hne)
    rintro a b _ _ ⟨hle, hneq⟩ y1 q1 y2 q2 hy1a hy1b hy2a hy2b hq1 hq2 hA hB
    subst hA
    subst hB
    by_contra hgoal
    push_neg at hgoal
    obtain ⟨hyy, himp⟩ := hgoal
    rcases Nat.lt_or_ge y2 y1 with hylt | hyge
    · have hltb : lexLt (numChars y2 ++ [' ', 'Q'] ++ numChars q2)
          (numChars y1 ++ [' ', 'Q'] ++ numChars q1) = true :=
        (lexLt_quarterLabel_iff y2 q2 y1 q1 hy2a hy2b hy1a hy1b hq2 hq1).mpr (Or.inl hylt)
      have hfalse : lexLe (numChars y1 ++ [' ', 'Q'] ++ numChars q1)
          (numChars y2 ++ [' ', 'Q'] ++ numChars q2) = false := by
        unfold lexLe
        rw [hltb]
        rfl
      rw [hfalse] at hle
      exact Bool.noConfusion hle
    · have hyeq : y1 = y2 := by omega
      subst hyeq
      have hqle : q2 ≤ q1 := himp rfl
      rcases Nat.lt_or_ge q2 q1 with hqlt | hqge
      · have hltb : lexLt (numChars y1 ++ [' ', 'Q'] ++ numChars q2)
            (numChars y1 ++ [' ', 'Q'] ++ numChars q1) = true :=
          (lexLt_quarterLabel_iff y1 q2 y1 q1 hy1a hy1b hy1a hy1b hq2 hq1).mpr
            (Or.inr ⟨rfl, hqlt⟩)
        have hfalse : lexLe (numChars y1 ++ [' ', 'Q'] ++ numChars q1)
            (numChars y1 ++ [' ', 'Q'] ++ numChars q2) = false := by
          unfold lexLe
          rw [hltb]
          rfl
        rw [hfalse] at hle
        exact Bool.noConfusion hle
      · have hqeq : q1 = q2 := by omega
        subst hqeq
        exact hneq rfl

/-- C9 (counterexample): the label list is sorted with the JS default
comparator, which compares the decimal strings by code units, and this is
NOT calendar order for every dataset: for records dated in years 999 and
1000, the year list comes out as [1000, 999] because the string "1000"
precedes "999", so the earlier calendar year 999 does not precede 1000. -/
theorem yearOptions_string_sort_counterexample :
    yearOptionsOf [⟨true, ⟨999, 0, 1⟩, none⟩, ⟨true, ⟨1000, 0, 1⟩, none⟩] = [1000, 999]
      ∧ ¬ (yearOptionsOf
            [⟨true, ⟨999, 0, 1⟩, none⟩, ⟨true, ⟨1000, 0, 1⟩, none⟩]).Pairwise
          (· < ·) := by
  have h : yearOptionsOf [⟨true, ⟨999, 0, 1⟩, none⟩, ⟨true, ⟨1000, 0, 1⟩, none⟩]
      = [1000, 999] := by
    simp [yearOptionsOf, firstDedup, yearKey, List.mergeSort, List.merge, jsNumLe, lexLe,
      lexLt, numChars, digitsLE, digitChar, charLtB]
  refine ⟨h, ?_⟩
  rw [h]
  intro hpw
  have hlt := (List.pairwise_cons.mp hpw).1 999 (by simp)
  omega

theorem labelList_calendar_order_four_digit_witness :
    (yearOptionsOf [⟨true, ⟨2021, 0, 1⟩, none⟩, ⟨true, ⟨2020, 0, 1⟩, none⟩]).Pairwise
      (· < ·) :=
  labelList_calendar_order_four_digit.1
    [⟨true, ⟨2021, 0, 1⟩, none⟩, ⟨true, ⟨2020, 0, 1⟩, none⟩] (by decide)
